import Mathlib

/-! Verification of the variable-length integer codec in
`src/quinn-proto/src/varint.rs`.

The Rust code is shallowly embedded over `Nat`:
* machine integers (`u8`, `u16`, `u32`, `u64`) become `Nat`, with `% 2^w`
  inserted exactly where the Rust code truncates (`as u8`, `as u16`, …);
* the read cursor (`Buf`) becomes a `List Nat` of the remaining bytes, with
  byte values `< 256` tracked as hypotheses where a claim needs them;
* the write sink (`BufMut`) becomes a `Sink` recording its remaining
  capacity (`remaining_mut`) and the bytes emitted so far (`out`);
* fallible paths (`Option`, `Result<_, WriteError>`) are returned explicitly,
  and `read` also returns the bytes left in the cursor so that cursor
  consumption on failure is observable.
-/

set_option autoImplicit false

namespace Quinn

/-- `const ONE_OCTET_MAX: u64 = 63`. -/
def ONE_OCTET_MAX : Nat := 63

/-- `const TWO_OCTETS_MIN: u64 = ONE_OCTET_MAX + 1`. -/
def TWO_OCTETS_MIN : Nat := ONE_OCTET_MAX + 1

/-- `const TWO_OCTETS_MAX: u64 = 16383`. -/
def TWO_OCTETS_MAX : Nat := 16383

/-- `const FOUR_OCTETS_MIN: u64 = TWO_OCTETS_MAX + 1`. -/
def FOUR_OCTETS_MIN : Nat := TWO_OCTETS_MAX + 1

/-- `const FOUR_OCTETS_MAX: u64 = 1_073_741_823`. -/
def FOUR_OCTETS_MAX : Nat := 1073741823

/-- `const EIGHT_OCTETS_MIN: u64 = FOUR_OCTETS_MAX + 1`. -/
def EIGHT_OCTETS_MIN : Nat := FOUR_OCTETS_MAX + 1

/-- `const EIGHT_OCTETS_MAX: u64 = 4_611_686_018_427_387_903`. -/
def EIGHT_OCTETS_MAX : Nat := 4611686018427387903

/-- `VarInt::size(&self)`: the `match self.0` over the four inclusive range
patterns, in source order.  The `unreachable!()` arm is modelled as `none`. -/
def VarInt.size (v : Nat) : Option Nat :=
  if 0 ≤ v ∧ v ≤ ONE_OCTET_MAX then some 1
  else if TWO_OCTETS_MIN ≤ v ∧ v ≤ TWO_OCTETS_MAX then some 2
  else if FOUR_OCTETS_MIN ≤ v ∧ v ≤ FOUR_OCTETS_MAX then some 4
  else if EIGHT_OCTETS_MIN ≤ v ∧ v ≤ EIGHT_OCTETS_MAX then some 8
  else none

/-- `impl From<u64> for VarInt` as compiled in a RELEASE build: the
`debug_assert!(int <= EIGHT_OCTETS_MAX)` is compiled out, so the magnitude is
stored unchecked. -/
def VarInt.fromU64 (int : Nat) : Nat := int

/-- `impl From<u64> for VarInt` as compiled in a DEBUG build: the
`debug_assert!` panics when the bound fails; the panic is modelled as `none`. -/
def VarInt.fromU64Debug (int : Nat) : Option Nat :=
  if int ≤ EIGHT_OCTETS_MAX then some int else none

/-- `impl ops::Add for VarInt` (release build): `let sum = self.0 + rhs.0`
(u64 addition, wrapping in release) followed by `VarInt::from(sum)`. -/
def VarInt.add (a b : Nat) : Nat := VarInt.fromU64 ((a + b) % 2 ^ 64)

/-- `pub fn size(x: u64) -> Option<usize>`. -/
def size (x : Nat) : Option Nat :=
  if x < 2 ^ 6 then some 1
  else if x < 2 ^ 14 then some 2
  else if x < 2 ^ 30 then some 4
  else if x < 2 ^ 62 then some 8
  else none

/-- `byteorder::BigEndian::read_u16` on the scratch array `buf`: the big-endian
value of its first two bytes (`buf` is zero-initialised, hence default `0`). -/
def read_u16 (buf : List Nat) : Nat :=
  buf.getD 0 0 * 2 ^ 8 + buf.getD 1 0

/-- `byteorder::BigEndian::read_u32` on the scratch array `buf`. -/
def read_u32 (buf : List Nat) : Nat :=
  buf.getD 0 0 * 2 ^ 24 + buf.getD 1 0 * 2 ^ 16 + buf.getD 2 0 * 2 ^ 8 +
    buf.getD 3 0

/-- `byteorder::BigEndian::read_u64` on the scratch array `buf`. -/
def read_u64 (buf : List Nat) : Nat :=
  buf.getD 0 0 * 2 ^ 56 + buf.getD 1 0 * 2 ^ 48 + buf.getD 2 0 * 2 ^ 40 +
    buf.getD 3 0 * 2 ^ 32 + buf.getD 4 0 * 2 ^ 24 + buf.getD 5 0 * 2 ^ 16 +
    buf.getD 6 0 * 2 ^ 8 + buf.getD 7 0

/-- `pub fn read<R: Buf>(r: &mut R) -> Option<u64>`.

The cursor is the list of remaining bytes; the result pairs the decoded value
(or `None`) with the bytes still unconsumed, so cursor consumption is
observable.  `r.get_u8()` consumes the head; `tag = buf[0] >> 6`;
`buf[0] &= 0b0011_1111`; the `match tag` on `0b00 | 0b01 | 0b10 | 0b11` is the
if-chain below, whose final arm is the source's `unreachable!()` (modelled as
no value, never reached for bytes `< 256`).  Each `r.remaining() < k` check and
`r.copy_to_slice(&mut buf[1..1+k])` copy is reflected on the list. -/
def read (r : List Nat) : Option Nat × List Nat :=
  match r with
  | [] => (none, [])
  | b :: rest =>
    let tag := b >>> 6
    let b0 := b &&& 63
    if tag = 0 then (some b0, rest)
    else if tag = 1 then
      if rest.length < 1 then (none, rest)
      else (some (read_u16 (b0 :: rest.take 1)), rest.drop 1)
    else if tag = 2 then
      if rest.length < 3 then (none, rest)
      else (some (read_u32 (b0 :: rest.take 3)), rest.drop 3)
    else if tag = 3 then
      if rest.length < 7 then (none, rest)
      else (some (read_u64 (b0 :: rest.take 7)), rest.drop 7)
    else (none, rest)

/-- `pub enum WriteError`. -/
inductive WriteError where
  | InsufficientSpace
  | OversizedValue
deriving DecidableEq, Repr

/-- The write sink (`W: BufMut`): remaining capacity (`remaining_mut()`) and
the bytes emitted so far. -/
structure Sink where
  remaining_mut : Nat
  out : List Nat
deriving DecidableEq, Repr

/-- Emitting bytes into a sink: capacity drops by the byte count, the bytes
are appended to the output. -/
def Sink.put (w : Sink) (bs : List Nat) : Sink :=
  ⟨w.remaining_mut - bs.length, w.out ++ bs⟩

/-- `byteorder`-style big-endian serialisation of a `u16` (`put_u16_be`). -/
def u16_be (x : Nat) : List Nat :=
  [x / 2 ^ 8 % 2 ^ 8, x % 2 ^ 8]

/-- Big-endian serialisation of a `u32` (`put_u32_be`). -/
def u32_be (x : Nat) : List Nat :=
  [x / 2 ^ 24 % 2 ^ 8, x / 2 ^ 16 % 2 ^ 8, x / 2 ^ 8 % 2 ^ 8, x % 2 ^ 8]

/-- Big-endian serialisation of a `u64` (`put_u64_be`). -/
def u64_be (x : Nat) : List Nat :=
  [x / 2 ^ 56 % 2 ^ 8, x / 2 ^ 48 % 2 ^ 8, x / 2 ^ 40 % 2 ^ 8,
   x / 2 ^ 32 % 2 ^ 8, x / 2 ^ 24 % 2 ^ 8, x / 2 ^ 16 % 2 ^ 8,
   x / 2 ^ 8 % 2 ^ 8, x % 2 ^ 8]

/-- `pub fn write<W: BufMut>(x: u64, w: &mut W) -> Result<(), WriteError>`.

The pair returned is (the error, if any; the sink afterwards), so that the
sink's state on failure is observable.  Casts `x as u8` / `as u16` / `as u32`
are `% 2^8` / `% 2^16` / `% 2^32`; `0b01 << 14 | …` etc. are kept as shifts
and bitwise ors. -/
def write (x : Nat) (w : Sink) : Option WriteError × Sink :=
  if x < 2 ^ 6 then
    if w.remaining_mut < 1 then (some .InsufficientSpace, w)
    else (none, w.put [x % 2 ^ 8])
  else if x < 2 ^ 14 then
    if w.remaining_mut < 2 then (some .InsufficientSpace, w)
    else (none, w.put (u16_be ((1 <<< 14) ||| (x % 2 ^ 16))))
  else if x < 2 ^ 30 then
    if w.remaining_mut < 4 then (some .InsufficientSpace, w)
    else (none, w.put (u32_be ((2 <<< 30) ||| (x % 2 ^ 32))))
  else if x < 2 ^ 62 then
    if w.remaining_mut < 8 then (some .InsufficientSpace, w)
    else (none, w.put (u64_be ((3 <<< 62) ||| x)))
  else (some .OversizedValue, w)

/-- The total encoded length implied by the tag bits of a first octet, as the
spec describes it (tag `00` → 1, `01` → 2, `10` → 4, `11` → 8). -/
def tagLength (b : Nat) : Nat :=
  if b >>> 6 = 0 then 1
  else if b >>> 6 = 1 then 2
  else if b >>> 6 = 2 then 4
  else 8

/-- The spec's 2-bit tag for each length class (1 → `00`, 2 → `01`, 4 → `10`,
8 → `11`). -/
def specTag (n : Nat) : Nat :=
  if n = 1 then 0 else if n = 2 then 1 else if n = 4 then 2 else 3

/-- The spec's wire layout: the `n`-octet big-endian representation of a value
(`§4.4` step 3 / `§6`). -/
def specBeBytes (n v : Nat) : List Nat :=
  (List.range n).map (fun i => v / 2 ^ (8 * (n - 1 - i)) % 2 ^ 8)

/-- The big-endian value of a byte sequence (the claim's "big-endian value of
the remaining bits", the low 6 bits of the tag byte followed by the further
octets, `§4.3` step 4). -/
def specBeVal (bs : List Nat) : Nat :=
  bs.foldl (fun acc y => acc * 2 ^ 8 + y) 0

/-! Helper lemmas -/

lemma and_63_eq_mod (b : Nat) : b &&& 63 = b % 64 := by
  have h := Nat.and_pow_two_sub_one_eq_mod b 6
  norm_num at h
  exact h

lemma shiftRight6 (b : Nat) : b >>> 6 = b / 64 := by
  have h := Nat.shiftRight_eq_div_pow b 6
  norm_num at h
  exact h

lemma shift_or_eq_add (a k x : Nat) (hx : x < 2 ^ k) :
    (a <<< k) ||| x = a * 2 ^ k + x := by
  rw [Nat.shiftLeft_eq, Nat.mul_comm a (2 ^ k)]
  exact (Nat.mul_add_lt_is_or hx a).symm

/-- Evaluating `write` on the one-octet class. -/
lemma write_class1 (x cap : Nat) (h1 : x < 2 ^ 6) (hcap : 1 ≤ cap) :
    write x ⟨cap, []⟩ = (none, ⟨cap - 1, [x]⟩) := by
  unfold write
  rw [if_pos h1, if_neg (by simp; omega)]
  simp [Sink.put]
  omega

/-- Evaluating `write` on the two-octet class. -/
lemma write_class2 (x cap : Nat) (h1 : ¬ x < 2 ^ 6) (h2 : x < 2 ^ 14) (hcap : 2 ≤ cap) :
    write x ⟨cap, []⟩ =
      (none, ⟨cap - 2, [(2 ^ 14 + x) / 2 ^ 8 % 2 ^ 8, (2 ^ 14 + x) % 2 ^ 8]⟩) := by
  unfold write
  rw [if_neg h1, if_pos h2, if_neg (by simp; omega)]
  rw [Nat.mod_eq_of_lt (show x < 2 ^ 16 by omega), shift_or_eq_add 1 14 x h2]
  simp [Sink.put, u16_be]

/-- Evaluating `write` on the four-octet class. -/
lemma write_class4 (x cap : Nat) (h2 : ¬ x < 2 ^ 14) (h3 : x < 2 ^ 30) (hcap : 4 ≤ cap) :
    write x ⟨cap, []⟩ =
      (none, ⟨cap - 4, [(2 * 2 ^ 30 + x) / 2 ^ 24 % 2 ^ 8, (2 * 2 ^ 30 + x) / 2 ^ 16 % 2 ^ 8,
        (2 * 2 ^ 30 + x) / 2 ^ 8 % 2 ^ 8, (2 * 2 ^ 30 + x) % 2 ^ 8]⟩) := by
  unfold write
  rw [if_neg (by omega), if_neg h2, if_pos h3, if_neg (by simp; omega)]
  rw [Nat.mod_eq_of_lt (show x < 2 ^ 32 by omega), shift_or_eq_add 2 30 x h3]
  simp [Sink.put, u32_be]

/-- Evaluating `write` on the eight-octet class. -/
lemma write_class8 (x cap : Nat) (h3 : ¬ x < 2 ^ 30) (h4 : x < 2 ^ 62) (hcap : 8 ≤ cap) :
    write x ⟨cap, []⟩ =
      (none, ⟨cap - 8, [(3 * 2 ^ 62 + x) / 2 ^ 56 % 2 ^ 8, (3 * 2 ^ 62 + x) / 2 ^ 48 % 2 ^ 8,
        (3 * 2 ^ 62 + x) / 2 ^ 40 % 2 ^ 8, (3 * 2 ^ 62 + x) / 2 ^ 32 % 2 ^ 8,
        (3 * 2 ^ 62 + x) / 2 ^ 24 % 2 ^ 8, (3 * 2 ^ 62 + x) / 2 ^ 16 % 2 ^ 8,
        (3 * 2 ^ 62 + x) / 2 ^ 8 % 2 ^ 8, (3 * 2 ^ 62 + x) % 2 ^ 8]⟩) := by
  unfold write
  rw [if_neg (by omega), if_neg (by omega), if_neg h3, if_pos h4, if_neg (by simp; omega)]
  rw [shift_or_eq_add 3 62 x h4]
  simp [Sink.put, u64_be]

/-- Decoding the one-octet encoding. -/
lemma read_enc1 (x : Nat) (h1 : x < 2 ^ 6) : read [x] = (some x, []) := by
  simp only [read, shiftRight6, and_63_eq_mod]
  rw [if_pos (by omega)]
  simp
  omega

/-- Decoding the two-octet encoding. -/
lemma read_enc2 (x : Nat) (h2 : x < 2 ^ 14) :
    read [(2 ^ 14 + x) / 2 ^ 8 % 2 ^ 8, (2 ^ 14 + x) % 2 ^ 8] = (some x, []) := by
  simp only [read, shiftRight6, and_63_eq_mod]
  rw [if_neg (by omega), if_pos (by omega)]
  simp [read_u16]
  omega

/-- Decoding the four-octet encoding. -/
lemma read_enc4 (x : Nat) (h3 : x < 2 ^ 30) :
    read [(2 * 2 ^ 30 + x) / 2 ^ 24 % 2 ^ 8, (2 * 2 ^ 30 + x) / 2 ^ 16 % 2 ^ 8,
      (2 * 2 ^ 30 + x) / 2 ^ 8 % 2 ^ 8, (2 * 2 ^ 30 + x) % 2 ^ 8] = (some x, []) := by
  simp only [read, shiftRight6, and_63_eq_mod]
  rw [if_neg (by omega), if_neg (by omega), if_pos (by omega)]
  simp [read_u32]
  omega

/-- Decoding the eight-octet encoding. -/
lemma read_enc8 (x : Nat) (h4 : x < 2 ^ 62) :
    read [(3 * 2 ^ 62 + x) / 2 ^ 56 % 2 ^ 8, (3 * 2 ^ 62 + x) / 2 ^ 48 % 2 ^ 8,
      (3 * 2 ^ 62 + x) / 2 ^ 40 % 2 ^ 8, (3 * 2 ^ 62 + x) / 2 ^ 32 % 2 ^ 8,
      (3 * 2 ^ 62 + x) / 2 ^ 24 % 2 ^ 8, (3 * 2 ^ 62 + x) / 2 ^ 16 % 2 ^ 8,
      (3 * 2 ^ 62 + x) / 2 ^ 8 % 2 ^ 8, (3 * 2 ^ 62 + x) % 2 ^ 8] = (some x, []) := by
  simp only [read, shiftRight6, and_63_eq_mod]
  rw [if_neg (by omega), if_neg (by omega), if_neg (by omega), if_pos (by omega)]
  simp [read_u64]
  omega

lemma specBeBytes_one (v : Nat) : specBeBytes 1 v = [v % 2 ^ 8] := by
  norm_num [specBeBytes, List.range_succ]

lemma specBeBytes_two (v : Nat) :
    specBeBytes 2 v = [v / 2 ^ 8 % 2 ^ 8, v % 2 ^ 8] := by
  norm_num [specBeBytes, List.range_succ]

lemma specBeBytes_four (v : Nat) :
    specBeBytes 4 v = [v / 2 ^ 24 % 2 ^ 8, v / 2 ^ 16 % 2 ^ 8,
      v / 2 ^ 8 % 2 ^ 8, v % 2 ^ 8] := by
  norm_num [specBeBytes, List.range_succ]

lemma specBeBytes_eight (v : Nat) :
    specBeBytes 8 v = [v / 2 ^ 56 % 2 ^ 8, v / 2 ^ 48 % 2 ^ 8, v / 2 ^ 40 % 2 ^ 8,
      v / 2 ^ 32 % 2 ^ 8, v / 2 ^ 24 % 2 ^ 8, v / 2 ^ 16 % 2 ^ 8,
      v / 2 ^ 8 % 2 ^ 8, v % 2 ^ 8] := by
  norm_num [specBeBytes, List.range_succ]

lemma read_u16_eq_specBeVal : ∀ l : List Nat, l.length = 2 →
    read_u16 l = specBeVal l
  | [a, b], _ => by simp [read_u16, specBeVal]

lemma read_u32_eq_specBeVal : ∀ l : List Nat, l.length = 4 →
    read_u32 l = specBeVal l
  | [a, b, c, d], _ => by simp [read_u32, specBeVal]; omega

lemma read_u64_eq_specBeVal : ∀ l : List Nat, l.length = 8 →
    read_u64 l = specBeVal l
  | [a, b, c, d, e, f, g, i], _ => by simp [read_u64, specBeVal]; omega

lemma getD_lt (l : List Nat) (h : ∀ y ∈ l, y < 2 ^ 8) (i : Nat) :
    l.getD i 0 < 2 ^ 8 := by
  induction l generalizing i with
  | nil => simp [List.getD]
  | cons a t ih =>
    cases i with
    | zero => exact h a (by simp)
    | succ j =>
      simp only [List.getD_cons_succ]
      exact ih (fun y hy => h y (by simp [hy])) j

/-! Claim theorems -/

/-- C1: Round-trip law: for every `x` with `0 ≤ x ≤ 4611686018427387903` (i.e.
`size x = some n`), encoding `x` with `write` into a sink of sufficient
capacity succeeds and decoding the produced bytes with `read` returns
`Some x`, consuming them all. -/
theorem write_read_roundtrip (x cap n : Nat) (hn : size x = some n)
    (hcap : n ≤ cap) :
    ∃ s, write x ⟨cap, []⟩ = (none, s) ∧ read s.out = (some x, []) := by
  unfold size at hn
  split_ifs at hn with h1 h2 h3 h4
  · simp only [Option.some.injEq] at hn
    subst hn
    exact ⟨_, write_class1 x cap h1 hcap, read_enc1 x h1⟩
  · simp only [Option.some.injEq] at hn
    subst hn
    exact ⟨_, write_class2 x cap h1 h2 hcap, read_enc2 x h2⟩
  · simp only [Option.some.injEq] at hn
    subst hn
    exact ⟨_, write_class4 x cap h2 h3 hcap, read_enc4 x h3⟩
  · simp only [Option.some.injEq] at hn
    subst hn
    exact ⟨_, write_class8 x cap h3 h4 hcap, read_enc8 x h4⟩

/-- Witness for C1 at the boundary values 63, 64, 16383, 16384, 1073741823
and 1073741824. -/
theorem write_read_roundtrip_witness :
    (∃ s, write 63 ⟨1, []⟩ = (none, s) ∧ read s.out = (some 63, [])) ∧
    (∃ s, write 64 ⟨2, []⟩ = (none, s) ∧ read s.out = (some 64, [])) ∧
    (∃ s, write 16383 ⟨2, []⟩ = (none, s) ∧ read s.out = (some 16383, [])) ∧
    (∃ s, write 16384 ⟨4, []⟩ = (none, s) ∧ read s.out = (some 16384, [])) ∧
    (∃ s, write 1073741823 ⟨4, []⟩ = (none, s) ∧
      read s.out = (some 1073741823, [])) ∧
    (∃ s, write 1073741824 ⟨8, []⟩ = (none, s) ∧
      read s.out = (some 1073741824, [])) :=
  ⟨write_read_roundtrip 63 1 1 (by decide) (by decide),
   write_read_roundtrip 64 2 2 (by decide) (by decide),
   write_read_roundtrip 16383 2 2 (by decide) (by decide),
   write_read_roundtrip 16384 4 4 (by decide) (by decide),
   write_read_roundtrip 1073741823 4 4 (by decide) (by decide),
   write_read_roundtrip 1073741824 8 8 (by decide) (by decide)⟩

/-- C2: the length classifier `size` returns `some 1` on `[0,63]`, `some 2` on
`[64,16383]`, `some 4` on `[16384,1073741823]`, `some 8` on
`[1073741824,4611686018427387903]`, and `none` from `4611686018427387904`
upwards. -/
theorem size_bucket_boundaries (x : Nat) :
    size x = if x ≤ 63 then some 1
      else if x ≤ 16383 then some 2
      else if x ≤ 1073741823 then some 4
      else if x ≤ 4611686018427387903 then some 8
      else none := by
  unfold size
  split_ifs <;> first | rfl | (exfalso; omega)

/-- C3: for every `x` with `size x = some n` and a sink with remaining
capacity at least `n`, `write` succeeds and emits exactly `n` octets: the
value written as a big-endian integer of the class's bit width with the top 2
bits of the first octet set to the class tag, the value's own bits in that
position being zero (`x < 2 ^ (8 * n - 2)`). -/
theorem write_tagged_layout (x cap n : Nat) (hn : size x = some n)
    (hcap : n ≤ cap) :
    x < 2 ^ (8 * n - 2) ∧
    write x ⟨cap, []⟩ =
      (none, ⟨cap - n, specBeBytes n (specTag n * 2 ^ (8 * n - 2) + x)⟩) ∧
    (specBeBytes n (specTag n * 2 ^ (8 * n - 2) + x)).length = n := by
  unfold size at hn
  split_ifs at hn with h1 h2 h3 h4
  · simp only [Option.some.injEq] at hn
    subst hn
    refine ⟨by omega, ?_, by simp [specBeBytes]⟩
    rw [write_class1 x cap h1 hcap]
    norm_num [specBeBytes_one, specTag]
    omega
  · simp only [Option.some.injEq] at hn
    subst hn
    refine ⟨by omega, ?_, by simp [specBeBytes]⟩
    rw [write_class2 x cap h1 h2 hcap]
    norm_num [specBeBytes_two, specTag]
  · simp only [Option.some.injEq] at hn
    subst hn
    refine ⟨by omega, ?_, by simp [specBeBytes]⟩
    rw [write_class4 x cap h2 h3 hcap]
    norm_num [specBeBytes_four, specTag]
  · simp only [Option.some.injEq] at hn
    subst hn
    refine ⟨by omega, ?_, by simp [specBeBytes]⟩
    rw [write_class8 x cap h3 h4 hcap]
    norm_num [specBeBytes_eight, specTag]

/-- Witness for C3: the concrete encodings `37 → [0x25]` and
`15293 → [0x7B, 0xBD]`. -/
theorem write_tagged_layout_witness :
    (15293 < 2 ^ (8 * 2 - 2) ∧
      write 15293 ⟨2, []⟩ =
        (none, ⟨2 - 2, specBeBytes 2 (specTag 2 * 2 ^ (8 * 2 - 2) + 15293)⟩) ∧
      (specBeBytes 2 (specTag 2 * 2 ^ (8 * 2 - 2) + 15293)).length = 2) ∧
    write 37 ⟨1, []⟩ = (none, ⟨0, [0x25]⟩) ∧
    write 15293 ⟨2, []⟩ = (none, ⟨0, [0x7B, 0xBD]⟩) :=
  ⟨write_tagged_layout 15293 2 2 (by decide) (by decide), by decide, by decide⟩

/-- C4: for every `x ≥ 4611686018427387904` and every sink, `write` fails
with `OversizedValue`; for every `x` with `size x = some n` and a sink whose
remaining capacity is strictly less than `n`, `write` fails with
`InsufficientSpace`; in both cases the sink is unchanged (no bytes written). -/
theorem write_failure_modes (x : Nat) (w : Sink) :
    (2 ^ 62 ≤ x → write x w = (some .OversizedValue, w)) ∧
    (∀ n, size x = some n → w.remaining_mut < n →
      write x w = (some .InsufficientSpace, w)) := by
  constructor
  · intro hx
    unfold write
    rw [if_neg (by omega), if_neg (by omega), if_neg (by omega),
      if_neg (by omega)]
  · intro n hn hlt
    unfold size at hn
    unfold write
    split_ifs at hn with h1 h2 h3 h4
    · simp only [Option.some.injEq] at hn
      subst hn
      rw [if_pos h1, if_pos hlt]
    · simp only [Option.some.injEq] at hn
      subst hn
      rw [if_neg h1, if_pos h2, if_pos hlt]
    · simp only [Option.some.injEq] at hn
      subst hn
      rw [if_neg h1, if_neg h2, if_pos h3, if_pos hlt]
    · simp only [Option.some.injEq] at hn
      subst hn
      rw [if_neg h1, if_neg h2, if_neg h3, if_pos h4, if_pos hlt]

/-- Witness for C4: an oversized value fails regardless of capacity, and a
2-octet value into a capacity-1 sink fails with `InsufficientSpace`, both
leaving the sink untouched. -/
theorem write_failure_modes_witness :
    write 4611686018427387904 ⟨100, []⟩ =
      (some .OversizedValue, ⟨100, []⟩) ∧
    write 100 ⟨1, []⟩ = (some .InsufficientSpace, ⟨1, []⟩) :=
  ⟨(write_failure_modes 4611686018427387904 ⟨100, []⟩).1 (by decide),
   (write_failure_modes 100 ⟨1, []⟩).2 2 (by decide) (by decide)⟩

/-- C5: `read` returns no value on an empty buffer, and returns no value on
any buffer shorter than the length its first byte's tag implies; in the
latter case only the tag byte has been consumed from the cursor. -/
theorem read_truncated_buffer :
    read [] = (none, []) ∧
    ∀ b rest, b < 2 ^ 8 → rest.length + 1 < tagLength b →
      read (b :: rest) = (none, rest) := by
  refine ⟨rfl, fun b rest hb hshort => ?_⟩
  unfold tagLength at hshort
  rw [shiftRight6] at hshort
  simp only [read, shiftRight6, and_63_eq_mod]
  split_ifs at hshort with t0 t1 t2
  · exact absurd hshort (by omega)
  · rw [if_neg (by omega), if_pos t1, if_pos (by omega)]
  · rw [if_neg (by omega), if_neg (by omega), if_pos t2, if_pos (by omega)]
  · have ht : b / 64 = 3 := by omega
    rw [if_neg (by omega), if_neg (by omega), if_neg (by omega), if_pos ht,
      if_pos (by omega)]

/-- Witness for C5: a tag-`10` byte (total length 4) followed by a single
byte is rejected with only the tag byte consumed. -/
theorem read_truncated_buffer_witness : read [128, 1] = (none, [1]) :=
  read_truncated_buffer.2 128 [1] (by decide) (by decide)

/-- C6: the claim fails on the code in release builds.  `From<u64>` only
guards the 62-bit bound with a `debug_assert!`, which is compiled out of
release builds, so constructing a `VarInt` from `2^62` silently stores the
out-of-range magnitude instead of failing (the debug build does panic). -/
theorem fromU64_stores_oversized_in_release :
    VarInt.fromU64 4611686018427387904 = 4611686018427387904 ∧
    EIGHT_OCTETS_MAX < VarInt.fromU64 4611686018427387904 ∧
    VarInt.fromU64Debug 4611686018427387904 = none := by decide

/-- C7: the claim fails on the code in release builds.  `VarInt + VarInt`
computes `self.0 + rhs.0` and passes it to `VarInt::from`, whose only range
check is a `debug_assert!`; in a release build the sum `(2^62 - 1) + 1 = 2^62`
is silently stored out of range instead of failing. -/
theorem add_stores_oversized_in_release :
    VarInt.add EIGHT_OCTETS_MAX 1 = 4611686018427387904 ∧
    EIGHT_OCTETS_MAX < VarInt.add EIGHT_OCTETS_MAX 1 ∧
    VarInt.fromU64Debug (EIGHT_OCTETS_MAX + 1) = none := by decide

/-- C8: for every magnitude within the `VarInt` invariant, the method
`VarInt::size` agrees with the length classifier `size`, and its
`unreachable!()` fallback arm is never taken. -/
theorem varint_size_matches_classifier (v : Nat) (hv : v ≤ EIGHT_OCTETS_MAX) :
    VarInt.size v = size v ∧ (VarInt.size v).isSome = true := by
  unfold EIGHT_OCTETS_MAX at hv
  simp only [VarInt.size, size, ONE_OCTET_MAX, TWO_OCTETS_MIN, TWO_OCTETS_MAX,
    FOUR_OCTETS_MIN, FOUR_OCTETS_MAX, EIGHT_OCTETS_MIN, EIGHT_OCTETS_MAX]
  constructor
  · split_ifs <;> first | rfl | (exfalso; omega)
  · split_ifs <;> first | rfl | (exfalso; omega)

/-- Witness for C8 at the maximal representable magnitude. -/
theorem varint_size_matches_classifier_witness :
    VarInt.size 4611686018427387903 = size 4611686018427387903 ∧
    (VarInt.size 4611686018427387903).isSome = true :=
  varint_size_matches_classifier 4611686018427387903 (by decide)

/-- C9: whenever `read` returns a value, that value is within the validated
62-bit range: at most 6 bits of the tag byte plus at most 7 further octets are
ever assembled. -/
theorem read_result_in_range (buf : List Nat) (hb : ∀ y ∈ buf, y < 2 ^ 8)
    (v : Nat) (rest : List Nat) (h : read buf = (some v, rest)) :
    v ≤ EIGHT_OCTETS_MAX := by
  cases buf with
  | nil => simp [read] at h
  | cons b t =>
    have hbb : b < 2 ^ 8 := hb b (by simp)
    have htake : ∀ k : Nat, ∀ y ∈ t.take k, y < 2 ^ 8 :=
      fun k y hy => hb y (by simp [List.take_subset k t hy])
    simp only [read, shiftRight6, and_63_eq_mod] at h
    split_ifs at h with t0 t1 hr1 t2 hr2 t3 hr3
    · simp only [Prod.mk.injEq, Option.some.injEq] at h
      obtain ⟨hv, -⟩ := h
      subst hv
      unfold EIGHT_OCTETS_MAX
      omega
    · simp at h
    · simp only [Prod.mk.injEq, Option.some.injEq, read_u16,
        List.getD_cons_zero, List.getD_cons_succ] at h
      obtain ⟨hv, -⟩ := h
      subst hv
      have g0 := getD_lt (t.take 1) (htake 1) 0
      unfold EIGHT_OCTETS_MAX
      omega
    · simp at h
    · simp only [Prod.mk.injEq, Option.some.injEq, read_u32,
        List.getD_cons_zero, List.getD_cons_succ] at h
      obtain ⟨hv, -⟩ := h
      subst hv
      have g0 := getD_lt (t.take 3) (htake 3) 0
      have g1 := getD_lt (t.take 3) (htake 3) 1
      have g2 := getD_lt (t.take 3) (htake 3) 2
      unfold EIGHT_OCTETS_MAX
      omega
    · simp at h
    · simp only [Prod.mk.injEq, Option.some.injEq, read_u64,
        List.getD_cons_zero, List.getD_cons_succ] at h
      obtain ⟨hv, -⟩ := h
      subst hv
      have g0 := getD_lt (t.take 7) (htake 7) 0
      have g1 := getD_lt (t.take 7) (htake 7) 1
      have g2 := getD_lt (t.take 7) (htake 7) 2
      have g3 := getD_lt (t.take 7) (htake 7) 3
      have g4 := getD_lt (t.take 7) (htake 7) 4
      have g5 := getD_lt (t.take 7) (htake 7) 5
      have g6 := getD_lt (t.take 7) (htake 7) 6
      unfold EIGHT_OCTETS_MAX
      omega
    · simp at h

/-- Witness for C9 on the maximal 8-octet encoding. -/
theorem read_result_in_range_witness :
    (255 : Nat) ≤ EIGHT_OCTETS_MAX :=
  read_result_in_range [64, 255] (by decide) 255 [] (by decide)

/-- C10: `read` accepts non-minimal encodings: whenever the buffer holds at
least as many bytes as the first byte's tag implies, `read` succeeds with the
big-endian value of the remaining bits (the low 6 bits of the tag byte
followed by the tag-implied further octets), consuming exactly the implied
number of bytes; it never rejects an input once enough bytes are present. -/
theorem read_accepts_nonminimal (b : Nat) (rest : List Nat) (hb : b < 2 ^ 8)
    (hlen : tagLength b ≤ rest.length + 1) :
    read (b :: rest) =
      (some (specBeVal ((b % 2 ^ 6) :: rest.take (tagLength b - 1))),
        rest.drop (tagLength b - 1)) := by
  have h4 : b / 64 = 0 ∨ b / 64 = 1 ∨ b / 64 = 2 ∨ b / 64 = 3 := by omega
  unfold tagLength at hlen ⊢
  rw [shiftRight6] at hlen ⊢
  simp only [read, shiftRight6, and_63_eq_mod]
  rcases h4 with ht | ht | ht | ht
  · simp [ht, specBeVal]
  · have hr : ¬ rest.length < 1 := by simp [ht] at hlen; omega
    have hl : ((b % 64) :: rest.take 1).length = 2 := by
      simp [List.length_take]
      omega
    simp [ht, hr, read_u16_eq_specBeVal _ hl]
  · have hr : ¬ rest.length < 3 := by simp [ht] at hlen; omega
    have hl : ((b % 64) :: rest.take 3).length = 4 := by
      simp [List.length_take]
      omega
    simp [ht, hr, read_u32_eq_specBeVal _ hl]
  · have hr : ¬ rest.length < 7 := by simp [ht] at hlen; omega
    have hl : ((b % 64) :: rest.take 7).length = 8 := by
      simp [List.length_take]
      omega
    simp [ht, hr, read_u64_eq_specBeVal _ hl]

/-- Witness for C10: the non-minimal 2-octet encoding `[0x40, 0x25]` of 37 is
accepted and decodes to exactly 37. -/
theorem read_accepts_nonminimal_witness :
    read [64, 37] =
      (some (specBeVal ((64 % 2 ^ 6) :: List.take (tagLength 64 - 1) [37])),
        List.drop (tagLength 64 - 1) [37]) ∧
    read [64, 37] = (some 37, []) :=
  ⟨read_accepts_nonminimal 64 [37] (by decide) (by decide), by decide⟩

end Quinn
